import Mathlib

/-
Verification of the riley-cycles-watch cycle scanner
(src/cycles-detector/algorithms/scanner_clean.cpp and the two rolling
variants scanner_clean/generate_weekly_scanners.cpp and
scanner_clean/simple_heatmap_fixed.cpp) against its natural-language
specification.

Modelling conventions.
Doubles are idealised as exact rationals; the transcendental ingredients
of the C++ code (the Morlet kernel built from exp and the complex
exponential, the Gaussian smoothing weights, and sqrt) are not rational,
so they enter the model as explicit function parameters: every theorem
below holds for an arbitrary kernel function, arbitrary weight
functions and an arbitrary square-root function, which in particular
covers the real-valued ones used by the code.  Complex numbers are
modelled as pairs of rationals.  All integer arithmetic of the source
(int division, loop bounds) is modelled exactly on Nat / Int.
-/

namespace Riley

/-- Complex conjugate on the pair model of a complex number,
modelling conj in the C++ code. -/
def cconj (z : ℚ × ℚ) : ℚ × ℚ := (z.1, -z.2)

/-- Squared magnitude of a complex value, modelling abs(sum) * abs(sum)
in compute_power. -/
def normSq (z : ℚ × ℚ) : ℚ := z.1 * z.1 + z.2 * z.2

/-- Number of kernel cycles used by compute_power,
line 55 of scanner_clean.cpp: cycles = min(8, max(4, n / wavelength)).
Division is C++ int division on nonnegative values, i.e. Nat division. -/
def cyclesOf (n P : ℕ) : ℕ := min 8 (max 4 (n / P))

/-- Kernel length chosen by compute_power, line 56 of scanner_clean.cpp:
wlen = min(n, wavelength * cycles). -/
def wlenOf (n P : ℕ) : ℕ := min n (P * cyclesOf n P)

/-- Scan step of compute_power, line 63 of scanner_clean.cpp:
step = max(1, wavelength / 8). -/
def stepOf (P : ℕ) : ℕ := max 1 (P / 8)

/-- Closed form of the ascending C++ for-loop
for (c = lo; c <= hi; c += step): the visited values are
lo, lo + step, ..., up to hi.  Requires step > 0 to be faithful
(all call sites pass stepOf which is at least 1). -/
def centers (lo hi step : ℕ) : List ℕ :=
  if lo ≤ hi then (List.range ((hi - lo) / step + 1)).map (fun k => lo + k * step) else []

/-- Bounds-checked data read of the inner loop of compute_power,
lines 68 to 73 of scanner_clean.cpp: idx = center - wlen/2 + i, and the
contribution is data[idx] when 0 <= idx < n and nothing (zero) otherwise.
All quantities are nonnegative, so idx >= 0 becomes wlen/2 <= c + i. -/
def dval (data : List ℚ) (wlen c i : ℕ) : ℚ :=
  if wlen / 2 ≤ c + i ∧ c + i - wlen / 2 < data.length then data.getD (c + i - wlen / 2) 0 else 0

/-- Complex inner product accumulated at one scan center,
lines 66 to 73 of scanner_clean.cpp: sum of data[idx] * conj(wavelet[i])
over i < wlen.  The kernel kerP is the abstract Morlet wavelet
create_high_q_morlet(1/P, wlen), taking the length and the index. -/
def innerProd (kerP : ℕ → ℕ → ℚ × ℚ) (data : List ℚ) (wlen c : ℕ) : ℚ × ℚ :=
  ∑ i ∈ Finset.range wlen,
    (dval data wlen c i * (cconj (kerP wlen i)).1,
     dval data wlen c i * (cconj (kerP wlen i)).2)

/-- List of scan centers visited by compute_power,
line 65 of scanner_clean.cpp:
for (center = wlen/2; center <= n - wlen/2; center += step). -/
def scanCenters (n P : ℕ) : List ℕ :=
  centers (wlenOf n P / 2) (n - wlenOf n P / 2) (stepOf P)

/-- Accumulated total power over all scan centers,
lines 61 to 77 of scanner_clean.cpp. -/
def totalPower (ker : ℕ → ℕ → ℕ → ℚ × ℚ) (data : List ℚ) (P : ℕ) : ℚ :=
  ((scanCenters data.length P).map
    (fun c => normSq (innerProd (ker P) data (wlenOf data.length P) c))).sum

/-- The power estimator compute_power of scanner_clean.cpp lines 48 to 84
(identical in the two rolling variants).  The kernel ker models
create_high_q_morlet (arguments: wavelength, kernel length, sample index)
and sq models sqrt; both are abstract parameters since their C++ values
are transcendental. -/
def compute_power (ker : ℕ → ℕ → ℕ → ℚ × ℚ) (sq : ℚ → ℚ)
    (data : List ℚ) (wavelength : ℕ) : ℚ :=
  if wavelength > data.length / 2 then 0
  else
    if 0 < (scanCenters data.length wavelength).length then
      sq (totalPower ker data wavelength / ((scanCenters data.length wavelength).length : ℚ))
    else 0

/-- Modelled from the words of the specification for C1: power is 0 when
P exceeds N/2; otherwise the kernel length is L = min(N, P * cycles) with
cycles = clamp(N/P, 4, 8), the kernel slides at centers L/2 to N - L/2
inclusive with step max(1, P/8), and the result is the square root of the
mean of the squared magnitudes of the complex inner products over those
centers. -/
def compute_power_spec (ker : ℕ → ℕ → ℕ → ℚ × ℚ) (sq : ℚ → ℚ)
    (data : List ℚ) (P : ℕ) : ℚ :=
  if 2 * P > data.length then 0
  else
    let L := min data.length (P * min (max (data.length / P) 4) 8)
    let cs := centers (L / 2) (data.length - L / 2) (max 1 (P / 8))
    sq ((cs.map (fun c => normSq (innerProd (ker P) data L c))).sum / (cs.length : ℚ))

lemma centers_length_pos {lo hi step : ℕ} (h : lo ≤ hi) :
    0 < (centers lo hi step).length := by
  unfold centers
  rw [if_pos h]
  simp

lemma wlenOf_le (n P : ℕ) : wlenOf n P ≤ n := min_le_left _ _

lemma scanCenters_length_pos (n P : ℕ) : 0 < (scanCenters n P).length := by
  have h := wlenOf_le n P
  exact centers_length_pos (by omega)

/-- C1: the power estimator of the code coincides with the estimator
described sentence by sentence in the specification: zero when the period
exceeds half the window, and otherwise the RMS of the kernel inner
products over the centers L/2, L/2 + step, ..., N - L/2 with
L = min(N, P * clamp(N/P, 4, 8)) and step = max(1, P/8). -/
theorem C1_power_estimator_matches_spec (ker : ℕ → ℕ → ℕ → ℚ × ℚ) (sq : ℚ → ℚ)
    (data : List ℚ) (P : ℕ) (_hP : 1 ≤ P) :
    compute_power_spec ker sq data P = compute_power ker sq data P := by
  unfold compute_power compute_power_spec
  have hclamp : min (max (data.length / P) 4) 8 = cyclesOf data.length P := by
    unfold cyclesOf
    omega
  by_cases hg : P > data.length / 2
  · rw [if_pos hg, if_pos (by omega)]
  · rw [if_neg hg, if_neg (by omega)]
    rw [if_pos (scanCenters_length_pos data.length P)]
    have hL : min data.length (P * min (max (data.length / P) 4) 8) = wlenOf data.length P := by
      rw [hclamp]; rfl
    simp only [hL]
    rfl

/-- Witness for C1 at a concrete kernel, square root and window. -/
theorem C1_power_estimator_matches_spec_witness :
    1 ≤ 2 ∧
      compute_power_spec (fun _ _ _ => ((1 : ℚ), (0 : ℚ))) (fun x => x) [1, 0, -1, 2, 1] 2 =
        compute_power (fun _ _ _ => ((1 : ℚ), (0 : ℚ))) (fun x => x) [1, 0, -1, 2, 1] 2 :=
  ⟨by decide,
    C1_power_estimator_matches_spec (fun _ _ _ => ((1 : ℚ), (0 : ℚ))) (fun x => x)
      [1, 0, -1, 2, 1] 2 (by decide)⟩

/-- C10: for a window of length N at least 2 and a period P with
1 <= P <= N/2, the kernel length is at most N, the scan loop runs at
least once, the mean is never a division by zero, and compute_power
returns the square-root branch, never the fallback zero after the loop. -/
theorem C10_scan_loop_runs (ker : ℕ → ℕ → ℕ → ℚ × ℚ) (sq : ℚ → ℚ)
    (data : List ℚ) (P : ℕ) (_hP : 1 ≤ P) (hhalf : P ≤ data.length / 2) :
    wlenOf data.length P ≤ data.length ∧
      0 < (scanCenters data.length P).length ∧
      ((scanCenters data.length P).length : ℚ) ≠ 0 ∧
      compute_power ker sq data P =
        sq (totalPower ker data P / ((scanCenters data.length P).length : ℚ)) := by
  refine ⟨wlenOf_le _ _, scanCenters_length_pos _ _, ?_, ?_⟩
  · exact Nat.cast_ne_zero.mpr (Nat.pos_iff_ne_zero.mp (scanCenters_length_pos data.length P))
  · unfold compute_power
    rw [if_neg (by omega), if_pos (scanCenters_length_pos data.length P)]

/-- Witness for C10 at a concrete window of length 4 and period 2. -/
theorem C10_scan_loop_runs_witness :
    1 ≤ 2 ∧ 2 ≤ ([1, 0, -1, 0] : List ℚ).length / 2 ∧
      (wlenOf 4 2 ≤ 4 ∧ 0 < (scanCenters 4 2).length ∧
        ((scanCenters 4 2).length : ℚ) ≠ 0 ∧
        compute_power (fun _ _ _ => ((1 : ℚ), (0 : ℚ))) (fun x => x) [1, 0, -1, 0] 2 =
          totalPower (fun _ _ _ => ((1 : ℚ), (0 : ℚ))) [1, 0, -1, 0] 2 /
            ((scanCenters 4 2).length : ℚ)) :=
  ⟨by decide, by decide,
    C10_scan_loop_runs (fun _ _ _ => ((1 : ℚ), (0 : ℚ))) (fun x => x) [1, 0, -1, 0] 2
      (by decide) (by decide)⟩


/-- Stable insertion into an ascending sorted list of rationals.  Used to
give a kernel-computable model of std::sort on a vector of doubles: over
a linear order the ascending sorted permutation of a multiset is unique
as a value sequence, so any correct sort yields the same list. -/
def insertAsc (x : ℚ) : List ℚ → List ℚ
  | [] => [x]
  | y :: ys => if x ≤ y then x :: y :: ys else y :: insertAsc x ys

/-- Ascending insertion sort on rationals, the model of
sort(values.begin(), values.end()) in the median filter. -/
def sortAsc : List ℚ → List ℚ
  | [] => []
  | x :: xs => insertAsc x (sortAsc xs)

lemma insertAsc_perm (x : ℚ) (l : List ℚ) : (insertAsc x l).Perm (x :: l) := by
  induction l with
  | nil => rfl
  | cons y ys ih =>
    unfold insertAsc
    by_cases h : x ≤ y
    · rw [if_pos h]
    · rw [if_neg h]
      exact (ih.cons y).trans (List.Perm.swap x y ys)

lemma sortAsc_perm (l : List ℚ) : (sortAsc l).Perm l := by
  induction l with
  | nil => rfl
  | cons x xs ih => exact (insertAsc_perm x (sortAsc xs)).trans (ih.cons x)

/-- Median pick of the C++ median filter: sort the collected values
ascending and take values[values.size() / 2]. -/
def medianPick (values : List ℚ) : ℚ := (sortAsc values).getD (values.length / 2) 0

/-- In-bounds neighbor values around index i collected by the median
filter of scanner_clean.cpp lines 117 to 124: the values spectrum[i + j]
for j from -3 to 3 with 0 <= i + j < n, out-of-bounds neighbors omitted.
The loop index j is shifted to k = j + 3 in 0..6 for Nat arithmetic. -/
def medianWindow (s : List ℚ) (i : ℕ) : List ℚ :=
  (List.range 7).filterMap (fun k =>
    if 3 ≤ i + k ∧ i + k - 3 < s.length then some (s.getD (i + k - 3) 0) else none)

/-- The median filter of scanner_clean.cpp lines 113 to 130 (also
simple_heatmap_fixed.cpp lines 89 to 105): every entry, including the
boundary entries, becomes the median of the in-bounds values among
itself and its three neighbors on each side. -/
def median_filter (s : List ℚ) : List ℚ :=
  (List.range s.length).map (fun i => medianPick (medianWindow s i))

/-- Modelled from the words of claim C6: the median of the in-bounds
values among the entry and its three neighbors on each side,
out-of-bounds neighbors simply omitted from the median set.  The even
median convention (upper middle after ascending sort) is the one the
code uses. -/
def claim_median_at (s : List ℚ) (i : ℕ) : ℚ := medianPick (medianWindow s i)

/-- The median stage of process_spectrum in generate_weekly_scanners.cpp
lines 66 to 76: filtered starts as a copy of the spectrum and only the
interior indices i with window <= i < size - window are replaced by the
median of the full seven-value neighborhood; the outer three entries on
each side stay untouched. -/
def weekly_median_stage (s : List ℚ) : List ℚ :=
  (List.range s.length).map (fun i =>
    if 3 ≤ i ∧ i + 3 < s.length then
      medianPick ((List.range 7).map (fun k => s.getD (i + k - 3) 0))
    else s.getD i 0)

/-- The Gaussian smoothing smooth_spectrum of scanner_clean.cpp lines 87
to 110 (and the two inline copies in process_spectrum): each entry is
the weight-normalized average of its in-bounds neighbors within the
half-window.  The weight function w models
exp(-0.5 * j * j / (sigma * sigma)) with sigma = window / 3.0, which is
transcendental and therefore an abstract parameter here. -/
def smooth_spectrum (w : ℤ → ℚ) (window : ℕ) (s : List ℚ) : List ℚ :=
  (List.range s.length).map (fun i =>
    (∑ k ∈ Finset.range (2 * window + 1),
        if window ≤ i + k ∧ i + k - window < s.length then
          s.getD (i + k - window) 0 * w ((k : ℤ) - window) else 0) /
    (∑ k ∈ Finset.range (2 * window + 1),
        if window ≤ i + k ∧ i + k - window < s.length then w ((k : ℤ) - window) else 0))

/-- The peak enhancement enhance_peaks of scanner_clean.cpp lines 133 to
153: entries above the spectrum mean are stretched away from the mean by
the factor, entries at or below the mean are unchanged. -/
def enhance_peaks (factor : ℚ) (s : List ℚ) : List ℚ :=
  s.map (fun x =>
    if x > s.sum / (s.length : ℚ) then s.sum / (s.length : ℚ) + (x - s.sum / (s.length : ℚ)) * factor
    else x)

/-- Gaussian-weighted local average over the eleven neighbors of index i,
scanner_clean.cpp lines 235 to 242, with abstract weight function w
modelling exp(-0.5 * j * j / 4.0).  Read positions are i + j for j from
-5 to 5, shifted to k = j + 5 in 0..10; the loop guarantees they are in
bounds. -/
def adaptive_avg (w : ℤ → ℚ) (s : List ℚ) (i : ℕ) : ℚ :=
  (∑ k ∈ Finset.range 11, s.getD (i + k - 5) 0 * w ((k : ℤ) - 5)) /
  (∑ k ∈ Finset.range 11, w ((k : ℤ) - 5))

/-- One pass of the adaptive local smoothing of scanner_clean.cpp lines
230 to 246: adaptive_smooth starts as a copy of the spectrum; for the
interior indices 5 <= i < size - 5 whose current value is strictly below
the threshold, the entry is replaced by the Gaussian-weighted local
average of the pre-pass spectrum; everything else is copied unchanged. -/
def adaptive_pass (w : ℤ → ℚ) (thr : ℚ) (s : List ℚ) : List ℚ :=
  (List.range s.length).map (fun i =>
    if 5 ≤ i ∧ i + 5 < s.length ∧ s.getD i 0 < thr then adaptive_avg w s i
    else s.getD i 0)

/-- Maximum entry of a spectrum, modelling
*max_element(spectrum.begin(), spectrum.end()) on a nonempty vector. -/
def maxElem : List ℚ → ℚ
  | [] => 0
  | x :: xs => xs.foldl max x

/-- The final normalization of scanner_clean.cpp lines 248 to 250:
every entry is divided by the maximum, with no guard on the maximum.
When the maximum is exactly zero (an all-zero spectrum) the C++ division
0.0 / 0.0 produces NaN for every entry; that has no rational value, so
the model returns none in that case. -/
def normalize_clean (s : List ℚ) : Option (List ℚ) :=
  if maxElem s = 0 then none else some (s.map (fun x => x / maxElem s))

/-- The guarded normalization of process_spectrum in
generate_weekly_scanners.cpp lines 128 to 132 (also
simple_heatmap_fixed.cpp lines 211 to 215): divide by the maximum only
when it is positive, otherwise leave the spectrum unchanged. -/
def normalize_guarded (s : List ℚ) : List ℚ :=
  if 0 < maxElem s then s.map (fun x => x / maxElem s) else s


/-- The peak acceptance threshold 0.05 of scanner_clean.cpp line 266,
written as the rational 1/20 in a kernel-computable normal form. -/
def peak_threshold : ℚ := mkRat 1 20

/-- The adaptive smoothing threshold 0.3 of scanner_clean.cpp line 229,
written as the rational 3/10 in a kernel-computable normal form. -/
def adaptive_threshold : ℚ := mkRat 3 10

/-- Local-maximum test of the peak finder, scanner_clean.cpp lines 255
to 263: index i is a peak when no neighbor spectrum[i + j] for j from
-10 to 10, j nonzero, is strictly greater than spectrum[i].  The offset
j is shifted to k = j + 10 in 0..20; call sites guarantee i >= 10, so
the Nat subtraction i - 10 + k is exact. -/
def is_peak_at (s : List ℚ) (i : ℕ) : Prop :=
  ∀ k < 21, k ≠ 10 → ¬ s.getD i 0 < s.getD (i - 10 + k) 0

instance (s : List ℚ) (i : ℕ) : Decidable (is_peak_at s i) :=
  Nat.decidableBallLT 21 _

/-- The peak finder of scanner_clean.cpp lines 253 to 269 (identical in
generate_weekly_scanners.cpp lines 205 to 217): scan i from 10 while
i < size - 10, accept the local maxima whose power exceeds 0.05, and
record the pair (wavelengths[i], spectrum[i]); the wavelength array is
wl0 + i for the scan band starting at wl0 (30 in scanner_clean, 100 in
the rolling variants). -/
def find_peaks (wl0 : ℕ) (s : List ℚ) : List (ℕ × ℚ) :=
  ((List.range (s.length - 20)).map (fun k => k + 10)).filterMap (fun i =>
    if is_peak_at s i ∧ peak_threshold < s.getD i 0 then some (wl0 + i, s.getD i 0) else none)

/-- Contract of std::sort at scanner_clean.cpp lines 271 to 273 with the
comparator a.second > b.second: the output is some permutation of the
input that is sorted so that no later element has strictly greater
power, i.e. powers are non-increasing.  The C++ standard guarantees
nothing more for std::sort; in particular it does not promise
stability, so the relative order of equal-power peaks is left open by
this relation. -/
def IsStdSortByPowerOutput (l out : List (ℕ × ℚ)) : Prop :=
  l.Perm out ∧ out.Sorted (fun a b => b.2 ≤ a.2)

/-- Stable insertion for the descending-by-power insertion sort. -/
def insertDesc (a : ℕ × ℚ) : List (ℕ × ℚ) → List (ℕ × ℚ)
  | [] => [a]
  | b :: bs => if b.2 ≤ a.2 then a :: b :: bs else b :: insertDesc a bs

/-- Modelled from the words of the specification for C7: the list sorted
by descending power with ties kept in their original order (a stable
sort), realized as a stable insertion sort. -/
def stable_sort_desc : List (ℕ × ℚ) → List (ℕ × ℚ)
  | [] => []
  | a :: as => insertDesc a (stable_sort_desc as)

lemma insertDesc_perm (a : ℕ × ℚ) (l : List (ℕ × ℚ)) :
    (insertDesc a l).Perm (a :: l) := by
  induction l with
  | nil => rfl
  | cons b bs ih =>
    unfold insertDesc
    by_cases h : b.2 ≤ a.2
    · rw [if_pos h]
    · rw [if_neg h]
      exact (ih.cons b).trans (List.Perm.swap a b bs)

lemma stable_sort_desc_perm (l : List (ℕ × ℚ)) : (stable_sort_desc l).Perm l := by
  induction l with
  | nil => rfl
  | cons a as ih => exact (insertDesc_perm a (stable_sort_desc as)).trans (ih.cons a)

lemma insertDesc_sorted (a : ℕ × ℚ) (l : List (ℕ × ℚ))
    (h : l.Sorted (fun x y => y.2 ≤ x.2)) :
    (insertDesc a l).Sorted (fun x y => y.2 ≤ x.2) := by
  induction l with
  | nil => simp [insertDesc]
  | cons b bs ih =>
    rw [List.sorted_cons] at h
    unfold insertDesc
    by_cases hba : b.2 ≤ a.2
    · rw [if_pos hba]
      refine List.sorted_cons.mpr ⟨?_, List.sorted_cons.mpr h⟩
      intro c hc
      rcases List.mem_cons.mp hc with hc | hc
      · exact hc ▸ hba
      · exact le_trans (h.1 c hc) hba
    · rw [if_neg hba]
      refine List.sorted_cons.mpr ⟨?_, ih h.2⟩
      intro c hc
      rcases List.mem_cons.mp ((insertDesc_perm a bs).mem_iff.mp hc) with hc | hc
      · exact hc ▸ le_of_not_le hba
      · exact h.1 c hc

lemma stable_sort_desc_sorted (l : List (ℕ × ℚ)) :
    (stable_sort_desc l).Sorted (fun x y => y.2 ≤ x.2) := by
  induction l with
  | nil => simp [stable_sort_desc]
  | cons a as ih => exact insertDesc_sorted a _ ih


/-- Sum of the time indices, the accumulator sum_x of the detrending
loop at scanner_clean.cpp lines 176 to 183 for a window of size W. -/
def sum_x (W : ℕ) : ℚ := ∑ i ∈ Finset.range W, (i : ℚ)

/-- Sum of the squared time indices, the accumulator sum_xx of the
detrending loop (i * i summed over the window). -/
def sum_xx (W : ℕ) : ℚ := ∑ i ∈ Finset.range W, (i : ℚ) * i

/-- Sum of the log-price values, the accumulator sum_y.  The list ys
holds the values y = log(price) of the window; the logarithm itself is
transcendental, so the model works on the log series directly, which is
exactly the series the detrending code manipulates. -/
def sum_y (ys : List ℚ) : ℚ := ∑ i ∈ Finset.range ys.length, ys.getD i 0

/-- Sum of index times log-price, the accumulator sum_xy. -/
def sum_xy (ys : List ℚ) : ℚ := ∑ i ∈ Finset.range ys.length, (i : ℚ) * ys.getD i 0

/-- Least-squares slope of scanner_clean.cpp line 185:
(window * sum_xy - sum_x * sum_y) / (window * sum_xx - sum_x * sum_x). -/
def slope (ys : List ℚ) : ℚ :=
  ((ys.length : ℚ) * sum_xy ys - sum_x ys.length * sum_y ys) /
    ((ys.length : ℚ) * sum_xx ys.length - sum_x ys.length * sum_x ys.length)

/-- Least-squares intercept of scanner_clean.cpp line 186:
(sum_y - slope * sum_x) / window. -/
def intercept (ys : List ℚ) : ℚ :=
  (sum_y ys - slope ys * sum_x ys.length) / (ys.length : ℚ)

/-- Detrended residual of scanner_clean.cpp lines 188 to 190:
data[i] = y_i - (intercept + slope * i). -/
def residual (ys : List ℚ) (i : ℕ) : ℚ :=
  ys.getD i 0 - (intercept ys + slope ys * i)

/-- The offset-and-spectrum sequence produced by the weekly rolling
driver, generate_weekly_scanners.cpp lines 162 to 171 and 219: for each
week k from 0 to M the window is [S - 5k - W, S - 5k); when
start_idx = S - 5k - W is negative the week is skipped with continue
and contributes nothing; otherwise one result (week, analysis of that
window) is appended.  The per-window analysis f is abstract: the claim
is about which offsets appear, not about the spectra. -/
def weekly_results {A : Type} (f : ℕ → A) (S W M : ℕ) : List (ℕ × A) :=
  (List.range (M + 1)).filterMap (fun (k : ℕ) =>
    if (S : ℤ) - 5 * (k : ℤ) - (W : ℤ) < 0 then none else some (k, f k))

/-- The spectrum sequence produced by the fixed heatmap driver,
simple_heatmap_fixed.cpp lines 149 to 157 and 236: every week k from 0
to M contributes exactly one entry; when start_idx = S - 5k - W is
negative the entry is the placeholder vector<double>(701, 0), an
all-zero spectrum of length 701, otherwise it is the analysis g k of
the window. -/
def heatmap_spectra (g : ℕ → List ℚ) (S W M : ℕ) : List (List ℚ) :=
  (List.range (M + 1)).map (fun (k : ℕ) =>
    if (S : ℤ) - 5 * (k : ℤ) - (W : ℤ) < 0 then List.replicate 701 0 else g k)


lemma getD_map_range {A : Type} (f : ℕ → A) (d : A) {n i : ℕ} (h : i < n) :
    ((List.range n).map f).getD i d = f i := by
  rw [List.getD_eq_getElem?_getD, List.getElem?_map, List.getElem?_range h]
  rfl

/-- C3: every pair returned by the peak finder comes from a spectrum
index with at least ten neighbors on each side, carries that index
shifted by the scan-band origin together with the spectrum value there,
has power strictly greater than 0.05, and no neighbor within ten
positions on either side has strictly greater power. -/
theorem C3_peaks_are_local_maxima (wl0 : ℕ) (s : List ℚ) (p : ℕ × ℚ)
    (hp : p ∈ find_peaks wl0 s) :
    ∃ i, p = (wl0 + i, s.getD i 0) ∧ 10 ≤ i ∧ i + 10 < s.length ∧
      peak_threshold < s.getD i 0 ∧
      ∀ k < 21, k ≠ 10 → ¬ s.getD i 0 < s.getD (i - 10 + k) 0 := by
  unfold find_peaks at hp
  rcases List.mem_filterMap.mp hp with ⟨i, hi, hfi⟩
  rcases List.mem_map.mp hi with ⟨k, hk, rfl⟩
  have hk2 := List.mem_range.mp hk
  by_cases hc : is_peak_at s (k + 10) ∧ peak_threshold < s.getD (k + 10) 0
  · rw [if_pos hc] at hfi
    exact ⟨k + 10, (Option.some.inj hfi).symm, by omega, by omega, hc.2, hc.1⟩
  · rw [if_neg hc] at hfi
    exact absurd hfi (by simp)

/-- Witness for C3: a 21-entry spectrum with a single interior spike
produces exactly the peak at index 10, and the theorem applies to it. -/
theorem C3_peaks_are_local_maxima_witness :
    ((40, (1 : ℚ)) ∈
        find_peaks 30 [0, 0, 0, 0, 0, 0, 0, 0, 0, 0, 1, 0, 0, 0, 0, 0, 0, 0, 0, 0, 0]) ∧
      (∃ i, ((40 : ℕ), (1 : ℚ)) =
          (30 + i, ([0, 0, 0, 0, 0, 0, 0, 0, 0, 0, 1, 0, 0, 0, 0, 0, 0, 0, 0, 0, 0] :
            List ℚ).getD i 0) ∧
        10 ≤ i ∧
        i + 10 < ([0, 0, 0, 0, 0, 0, 0, 0, 0, 0, 1, 0, 0, 0, 0, 0, 0, 0, 0, 0, 0] :
          List ℚ).length ∧
        peak_threshold < ([0, 0, 0, 0, 0, 0, 0, 0, 0, 0, 1, 0, 0, 0, 0, 0, 0, 0, 0, 0, 0] :
          List ℚ).getD i 0 ∧
        ∀ k < 21, k ≠ 10 →
          ¬ ([0, 0, 0, 0, 0, 0, 0, 0, 0, 0, 1, 0, 0, 0, 0, 0, 0, 0, 0, 0, 0] :
              List ℚ).getD i 0 <
            ([0, 0, 0, 0, 0, 0, 0, 0, 0, 0, 1, 0, 0, 0, 0, 0, 0, 0, 0, 0, 0] :
              List ℚ).getD (i - 10 + k) 0) :=
  ⟨by decide, C3_peaks_are_local_maxima 30 _ _ (by decide)⟩

/-- C9: in one pass of the adaptive smoothing with threshold 0.3, every
entry among the outer five positions on either end and every entry at or
above the threshold is left exactly unchanged, and an interior entry
strictly below the threshold is replaced by the Gaussian-weighted
average of its eleven-point neighborhood in the pre-pass spectrum. -/
theorem C9_adaptive_pass_frame (w : ℤ → ℚ) (s : List ℚ) (i : ℕ) (hi : i < s.length) :
    ((i < 5 ∨ s.length ≤ i + 5 ∨ adaptive_threshold ≤ s.getD i 0) →
        (adaptive_pass w adaptive_threshold s).getD i 0 = s.getD i 0) ∧
      (5 ≤ i → i + 5 < s.length → s.getD i 0 < adaptive_threshold →
        (adaptive_pass w adaptive_threshold s).getD i 0 = adaptive_avg w s i) := by
  unfold adaptive_pass
  rw [getD_map_range _ _ hi]
  constructor
  · intro hcase
    rw [if_neg]
    rintro ⟨h5, h5r, hlt⟩
    rcases hcase with h | h | h
    · omega
    · omega
    · exact absurd hlt (not_lt.mpr h)
  · intro h5 h5r hlt
    rw [if_pos ⟨h5, h5r, hlt⟩]

/-- Witness for C9: on a concrete spectrum of length 11 with a low
valley at index 5, the pass replaces exactly that entry by the local
average. -/
theorem C9_adaptive_pass_frame_witness :
    5 < ([1, 1, 1, 1, 1, 0, 1, 1, 1, 1, 1] : List ℚ).length ∧
      (adaptive_pass (fun _ => 1) adaptive_threshold [1, 1, 1, 1, 1, 0, 1, 1, 1, 1, 1]).getD 5 0 =
        adaptive_avg (fun _ => 1) [1, 1, 1, 1, 1, 0, 1, 1, 1, 1, 1] 5 :=
  ⟨by decide,
    (C9_adaptive_pass_frame (fun _ => 1) [1, 1, 1, 1, 1, 0, 1, 1, 1, 1, 1] 5
      (by decide)).2 (by decide) (by decide) (by decide)⟩


lemma foldl_max_replicate_zero (n : ℕ) :
    (List.replicate n (0 : ℚ)).foldl max 0 = 0 := by
  induction n with
  | zero => rfl
  | succ m ih => rw [List.replicate_succ, List.foldl_cons, max_self]; exact ih

lemma maxElem_replicate_zero (n : ℕ) : maxElem (List.replicate n (0 : ℚ)) = 0 := by
  cases n with
  | zero => rfl
  | succ m =>
    rw [List.replicate_succ]
    show (List.replicate m (0 : ℚ)).foldl max 0 = 0
    exact foldl_max_replicate_zero m

/-- C2: the final normalization of scanner_clean.cpp lines 248 to 250
divides by the spectrum maximum without any guard, so on an all-zero
spectrum (maximum 0) every entry becomes the IEEE value 0.0 / 0.0 = NaN
instead of the spectrum being left all-zero as the claim states; the
guarded normalization of the rolling variants behaves as claimed. -/
theorem C2_unguarded_normalization_bug :
    normalize_clean (List.replicate 971 (0 : ℚ)) = none ∧
      normalize_clean (List.replicate 971 (0 : ℚ)) ≠ some (List.replicate 971 (0 : ℚ)) ∧
      normalize_guarded (List.replicate 971 (0 : ℚ)) = List.replicate 971 0 := by
  have h := maxElem_replicate_zero 971
  refine ⟨?_, ?_, ?_⟩
  · rw [normalize_clean, if_pos h]
  · rw [normalize_clean, if_pos h]; exact Option.noConfusion
  · rw [normalize_guarded, if_neg (by rw [h]; exact lt_irrefl 0)]

/-- C6 counterexample: on the concrete spectrum [0,5,5,5,5,5,5,5] the
weekly-variant median stage leaves boundary entry 0 unchanged at 0,
while the claimed behavior (median of the in-bounds values among the
entry and its three neighbors on each side) would give 5. -/
theorem C6_counterexample :
    (weekly_median_stage [0, 5, 5, 5, 5, 5, 5, 5]).getD 0 0 = 0 ∧
      claim_median_at [0, 5, 5, 5, 5, 5, 5, 5] 0 = 5 ∧
      (weekly_median_stage [0, 5, 5, 5, 5, 5, 5, 5]).getD 0 0 ≠
        claim_median_at [0, 5, 5, 5, 5, 5, 5, 5] 0 := by
  refine ⟨by decide, by decide, by decide⟩

/-- C6 amended: the median filter of scanner_clean.cpp replaces every
entry, boundary entries included, with the median of the in-bounds
values among itself and its three neighbors on each side; the weekly
variant applies that median only at interior indices with a full window
on both sides and leaves the outer three entries on each side exactly
unchanged. -/
theorem C6_median_boundary (s : List ℚ) (i : ℕ) (hi : i < s.length) :
    (median_filter s).getD i 0 = claim_median_at s i ∧
      (3 ≤ i → i + 3 < s.length →
        (weekly_median_stage s).getD i 0 = claim_median_at s i) ∧
      (i < 3 ∨ s.length ≤ i + 3 → (weekly_median_stage s).getD i 0 = s.getD i 0) := by
  refine ⟨?_, ?_, ?_⟩
  · rw [median_filter, getD_map_range _ _ hi]
    rfl
  · intro h3 h3r
    rw [weekly_median_stage, getD_map_range _ _ hi, if_pos ⟨h3, h3r⟩]
    unfold claim_median_at medianWindow
    congr 1
    have : ∀ k ∈ List.range 7,
        (if 3 ≤ i + k ∧ i + k - 3 < s.length then some (s.getD (i + k - 3) 0) else none) =
          (some ∘ fun k => s.getD (i + k - 3) 0) k := by
      intro k hk
      have hk7 := List.mem_range.mp hk
      exact if_pos ⟨by omega, by omega⟩
    rw [List.filterMap_congr this, List.filterMap_eq_map]
  · intro hcase
    rw [weekly_median_stage, getD_map_range _ _ hi, if_neg (by omega)]

/-- Witness for C6 amended at the interior index 3 of the
counterexample spectrum. -/
theorem C6_median_boundary_witness :
    3 < ([0, 5, 5, 5, 5, 5, 5, 5] : List ℚ).length ∧
      (weekly_median_stage [0, 5, 5, 5, 5, 5, 5, 5]).getD 3 0 =
        claim_median_at [0, 5, 5, 5, 5, 5, 5, 5] 3 :=
  ⟨by decide,
    (C6_median_boundary [0, 5, 5, 5, 5, 5, 5, 5] 3 (by decide)).2.1 (by decide) (by decide)⟩

/-- C7 counterexample: on the accepted-peak list [(0,1), (1,1)] (two
equal-power peaks in scan order) the output [(1,1), (0,1)] is a sorted
permutation, hence a permitted result of the std::sort call at
scanner_clean.cpp lines 271 to 273, yet it is not the stable descending
sort the claim promises: the equal-power peaks appear in reversed scan
order. -/
theorem C7_counterexample :
    IsStdSortByPowerOutput [(0, (1 : ℚ)), (1, 1)] [(1, (1 : ℚ)), (0, 1)] ∧
      [(1, (1 : ℚ)), (0, 1)] ≠ stable_sort_desc [(0, (1 : ℚ)), (1, 1)] := by
  exact ⟨⟨by decide, by decide⟩, by decide⟩

/-- C7 amended: every permitted output of the std::sort call is a
permutation of the accepted peaks with non-increasing powers, and when
all peak powers are pairwise distinct the output is uniquely determined
and coincides with the stable descending sort; only the relative order
of equal-power peaks is unspecified. -/
theorem C7_sort_contract (l out : List (ℕ × ℚ))
    (hout : IsStdSortByPowerOutput l out)
    (hdist : l.Pairwise (fun a b => a.2 ≠ b.2)) :
    out = stable_sort_desc l := by
  haveI : IsAntisymm (ℕ × ℚ) (fun a b => b.2 < a.2) :=
    ⟨fun a b h1 h2 => absurd h2 (lt_asymm h1)⟩
  have hsym : ∀ {x y : ℕ × ℚ}, x.2 ≠ y.2 → y.2 ≠ x.2 := fun h => h.symm
  have hperm : out.Perm (stable_sort_desc l) :=
    hout.1.symm.trans (stable_sort_desc_perm l).symm
  have hne_out : out.Pairwise (fun a b => a.2 ≠ b.2) :=
    (List.Perm.pairwise_iff hsym hout.1).mp hdist
  have hne_st : (stable_sort_desc l).Pairwise (fun a b => a.2 ≠ b.2) :=
    (List.Perm.pairwise_iff hsym (stable_sort_desc_perm l)).mpr hdist
  have hs_out : out.Sorted (fun a b => b.2 < a.2) :=
    (hout.2.and hne_out).imp (fun h => lt_of_le_of_ne h.1 (hsym h.2))
  have hs_st : (stable_sort_desc l).Sorted (fun a b => b.2 < a.2) :=
    ((stable_sort_desc_sorted l).and hne_st).imp (fun h => lt_of_le_of_ne h.1 (hsym h.2))
  exact List.eq_of_perm_of_sorted hperm hs_out hs_st

/-- Witness for C7 amended: a two-peak list with distinct powers admits
only the stable descending order as sorted output. -/
theorem C7_sort_contract_witness :
    IsStdSortByPowerOutput [(0, (2 : ℚ)), (1, 1)] [(0, (2 : ℚ)), (1, 1)] ∧
      ([(0, (2 : ℚ)), (1, 1)] : List (ℕ × ℚ)).Pairwise (fun a b => a.2 ≠ b.2) ∧
      [(0, (2 : ℚ)), (1, 1)] = stable_sort_desc [(0, (2 : ℚ)), (1, 1)] :=
  ⟨⟨by decide, by decide⟩, by decide,
    C7_sort_contract _ _ ⟨by decide, by decide⟩ (by decide)⟩


lemma weekly_results_fst {A : Type} (f : ℕ → A) (S W : ℕ) (l : List ℕ) :
    ((l.filterMap (fun (k : ℕ) =>
        if (S : ℤ) - 5 * (k : ℤ) - (W : ℤ) < 0 then none else some (k, f k))).map
      Prod.fst) = l.filter (fun k => W + 5 * k ≤ S) := by
  induction l with
  | nil => rfl
  | cons a t ih =>
    rw [List.filterMap_cons, List.filter_cons]
    by_cases h : (S : ℤ) - 5 * (a : ℤ) - (W : ℤ) < 0
    · rw [if_pos h]
      have hna : ¬ (W + 5 * a ≤ S) := by omega
      simp only [decide_eq_true_eq, hna, if_false]
      exact ih
    · rw [if_neg h]
      have ha : W + 5 * a ≤ S := by omega
      simp only [decide_eq_true_eq, ha, if_true, List.map_cons]
      rw [ih]

/-- C4 counterexample: with series length 10, window 4000 and maximum
offset 2 every offset lacks history, so the claim predicts an empty
output sequence; the fixed heatmap driver nevertheless emits one entry
per offset, each an all-zero placeholder spectrum of length 701. -/
theorem C4_counterexample :
    ((List.range 3).filter (fun k => 4000 + 5 * k ≤ 10)).length = 0 ∧
      (heatmap_spectra (fun _ => []) 10 4000 2).length = 3 ∧
      (heatmap_spectra (fun _ => []) 10 4000 2).getD 0 [] = List.replicate 701 0 := by
  refine ⟨by decide, ?_, ?_⟩
  · rw [heatmap_spectra, List.length_map, List.length_range]
  · rw [heatmap_spectra, getD_map_range _ _ (by omega), if_pos (by decide)]

/-- C4 amended: the weekly rolling driver produces exactly one result
for each offset k up to M with S - 5k - W nonnegative, in increasing
offset order, omitting the others entirely; the fixed heatmap driver
instead produces exactly one spectrum for every offset k up to M, an
all-zero placeholder of length 701 when S - 5k - W is negative and the
window analysis otherwise. -/
theorem C4_rolling_offsets (A : Type) (f : ℕ → A) (g : ℕ → List ℚ) (S W M : ℕ) :
    (weekly_results f S W M).map Prod.fst =
        (List.range (M + 1)).filter (fun k => W + 5 * k ≤ S) ∧
      (heatmap_spectra g S W M).length = M + 1 ∧
      (∀ k, k ≤ M → (S : ℤ) - 5 * (k : ℤ) - (W : ℤ) < 0 →
        (heatmap_spectra g S W M).getD k [] = List.replicate 701 0) ∧
      (∀ k, k ≤ M → ¬ ((S : ℤ) - 5 * (k : ℤ) - (W : ℤ) < 0) →
        (heatmap_spectra g S W M).getD k [] = g k) := by
  refine ⟨weekly_results_fst f S W (List.range (M + 1)), ?_, ?_, ?_⟩
  · rw [heatmap_spectra, List.length_map, List.length_range]
  · intro k hk hneg
    rw [heatmap_spectra, getD_map_range _ _ (by omega), if_pos hneg]
  · intro k hk hpos
    rw [heatmap_spectra, getD_map_range _ _ (by omega), if_neg hpos]

/-- Witness for C4 amended: with series length 4005, window 4000 and
maximum offset 2, offsets 0 and 1 are produced in order and offset 2 is
an all-zero placeholder in the heatmap driver. -/
theorem C4_rolling_offsets_witness :
    (weekly_results (fun k => k) 4005 4000 2).map Prod.fst = [0, 1] ∧
      (heatmap_spectra (fun _ => ([] : List ℚ)) 4005 4000 2).getD 2 [] =
        List.replicate 701 0 :=
  ⟨((C4_rolling_offsets ℕ (fun k => k) (fun _ => []) 4005 4000 2).1).trans (by decide),
    (C4_rolling_offsets ℕ (fun k => k) (fun _ => []) 4005 4000 2).2.2.1 2
      (by decide) (by decide)⟩

lemma sum_x_mul_two (W : ℕ) : sum_x W * 2 = (W : ℚ) * ((W : ℚ) - 1) := by
  induction W with
  | zero => simp [sum_x]
  | succ m ih =>
    rw [sum_x, Finset.sum_range_succ, ← sum_x]
    push_cast
    push_cast at ih
    linear_combination ih

lemma sum_xx_mul_six (W : ℕ) :
    sum_xx W * 6 = (W : ℚ) * ((W : ℚ) - 1) * (2 * (W : ℚ) - 1) := by
  induction W with
  | zero => simp [sum_xx]
  | succ m ih =>
    rw [sum_xx, Finset.sum_range_succ, ← sum_xx]
    push_cast
    push_cast at ih
    linear_combination ih

lemma detrend_denom (W : ℕ) :
    12 * ((W : ℚ) * sum_xx W - sum_x W * sum_x W) =
      (W : ℚ) * (W : ℚ) * ((W : ℚ) - 1) * ((W : ℚ) + 1) := by
  linear_combination (2 * (W : ℚ)) * sum_xx_mul_six W -
    (3 * (2 * sum_x W + (W : ℚ) * ((W : ℚ) - 1))) * sum_x_mul_two W

lemma detrend_denom_ne (W : ℕ) (hW : 2 ≤ W) :
    (W : ℚ) * sum_xx W - sum_x W * sum_x W ≠ 0 := by
  have h := detrend_denom W
  have hWq : (2 : ℚ) ≤ (W : ℚ) := by exact_mod_cast hW
  have h1 : (0 : ℚ) < (W : ℚ) := by linarith
  have h2 : (0 : ℚ) < (W : ℚ) - 1 := by linarith
  have h3 : (0 : ℚ) < (W : ℚ) + 1 := by linarith
  have hpos : 0 < (W : ℚ) * (W : ℚ) * ((W : ℚ) - 1) * ((W : ℚ) + 1) :=
    mul_pos (mul_pos (mul_pos h1 h1) h2) h3
  intro h0
  rw [h0, mul_zero] at h
  linarith

/-- C8: for any log-price window of size at least 2, the least-squares
detrended residuals satisfy both normal equations exactly: they sum to
zero and their inner product with the time index is zero, so the
residual series is uncorrelated with the time index. -/
theorem C8_residual_orthogonality (ys : List ℚ) (hW : 2 ≤ ys.length) :
    (∑ i ∈ Finset.range ys.length, residual ys i = 0) ∧
      (∑ i ∈ Finset.range ys.length, (i : ℚ) * residual ys i = 0) := by
  have hW0 : ((ys.length : ℚ)) ≠ 0 := Nat.cast_ne_zero.mpr (by omega)
  have hD := detrend_denom_ne ys.length hW
  constructor
  · have e : ∑ i ∈ Finset.range ys.length, residual ys i
        = sum_y ys - ((ys.length : ℚ) * intercept ys + slope ys * sum_x ys.length) := by
      unfold residual
      rw [Finset.sum_sub_distrib, Finset.sum_add_distrib, Finset.sum_const,
        Finset.card_range, nsmul_eq_mul, ← Finset.mul_sum]
      rfl
    rw [e]
    unfold intercept
    field_simp
  · have hpt : ∀ i ∈ Finset.range ys.length, (i : ℚ) * residual ys i
        = (i : ℚ) * ys.getD i 0 - (intercept ys * i + slope ys * ((i : ℚ) * i)) := by
      intro i _
      unfold residual
      ring
    have e : ∑ i ∈ Finset.range ys.length, (i : ℚ) * residual ys i
        = sum_xy ys - (intercept ys * sum_x ys.length + slope ys * sum_xx ys.length) := by
      rw [Finset.sum_congr rfl hpt, Finset.sum_sub_distrib, Finset.sum_add_distrib,
        ← Finset.mul_sum, ← Finset.mul_sum]
      rfl
    rw [e]
    unfold intercept slope
    field_simp
    ring

/-- Witness for C8 at the concrete log window [0, 1, 3]. -/
theorem C8_residual_orthogonality_witness :
    2 ≤ ([0, 1, 3] : List ℚ).length ∧
      ((∑ i ∈ Finset.range ([0, 1, 3] : List ℚ).length, residual [0, 1, 3] i = 0) ∧
        (∑ i ∈ Finset.range ([0, 1, 3] : List ℚ).length,
          (i : ℚ) * residual [0, 1, 3] i = 0)) :=
  ⟨by decide, C8_residual_orthogonality [0, 1, 3] (by decide)⟩


lemma getD_replicate_zero (n i : ℕ) : (List.replicate n (0 : ℚ)).getD i 0 = 0 := by
  rw [List.getD_eq_getElem?_getD, List.getElem?_replicate]
  by_cases h : i < n
  · rw [if_pos h]; rfl
  · rw [if_neg h]; rfl

lemma sortAsc_all_zero {l : List ℚ} (h : ∀ x ∈ l, x = 0) :
    ∀ x ∈ sortAsc l, x = 0 :=
  fun x hx => h x ((sortAsc_perm l).mem_iff.mp hx)

lemma medianPick_zero {l : List ℚ} (h : ∀ x ∈ l, x = 0) : medianPick l = 0 := by
  unfold medianPick
  rw [List.getD_eq_getElem?_getD]
  cases hk : (sortAsc l)[l.length / 2]? with
  | none => rfl
  | some v =>
    have hv := List.getElem?_mem hk
    simp [sortAsc_all_zero h v hv]

lemma medianWindow_all_zero (n i : ℕ) :
    ∀ x ∈ medianWindow (List.replicate n 0) i, x = 0 := by
  intro x hx
  rcases List.mem_filterMap.mp hx with ⟨k, _, hk⟩
  by_cases hc : 3 ≤ i + k ∧ i + k - 3 < (List.replicate n (0 : ℚ)).length
  · rw [if_pos hc] at hk
    have := Option.some.inj hk
    rw [getD_replicate_zero] at this
    exact this.symm
  · rw [if_neg hc] at hk
    exact Option.noConfusion hk

lemma median_filter_zero (n : ℕ) :
    median_filter (List.replicate n 0) = List.replicate n 0 := by
  rw [List.eq_replicate_iff]
  refine ⟨by rw [median_filter, List.length_map, List.length_range, List.length_replicate], ?_⟩
  intro b hb
  rcases List.mem_map.mp hb with ⟨i, _, rfl⟩
  exact medianPick_zero (medianWindow_all_zero n i)

lemma smooth_zero (w : ℤ → ℚ) (win n : ℕ) :
    smooth_spectrum w win (List.replicate n 0) = List.replicate n 0 := by
  rw [List.eq_replicate_iff]
  refine ⟨by rw [smooth_spectrum, List.length_map, List.length_range, List.length_replicate], ?_⟩
  intro b hb
  rcases List.mem_map.mp hb with ⟨i, _, rfl⟩
  simp only [getD_replicate_zero, zero_mul, ite_self, Finset.sum_const_zero, zero_div]

lemma enhance_zero (factor : ℚ) (n : ℕ) :
    enhance_peaks factor (List.replicate n 0) = List.replicate n 0 := by
  rw [enhance_peaks, List.map_replicate]
  congr 1
  simp

lemma adaptive_zero (w : ℤ → ℚ) (n : ℕ) :
    adaptive_pass w adaptive_threshold (List.replicate n 0) = List.replicate n 0 := by
  rw [List.eq_replicate_iff]
  refine ⟨by rw [adaptive_pass, List.length_map, List.length_range, List.length_replicate], ?_⟩
  intro b hb
  rcases List.mem_map.mp hb with ⟨i, _, rfl⟩
  simp only [adaptive_avg, getD_replicate_zero, zero_mul, Finset.sum_const_zero,
    zero_div, ite_self]

lemma normalize_clean_zero (n : ℕ) :
    normalize_clean (List.replicate n 0) = none := by
  rw [normalize_clean, if_pos (maxElem_replicate_zero n)]

lemma normalize_guarded_zero (n : ℕ) :
    normalize_guarded (List.replicate n 0) = List.replicate n 0 := by
  rw [normalize_guarded, if_neg (by rw [maxElem_replicate_zero n]; exact lt_irrefl 0)]

lemma find_peaks_zero (wl0 n : ℕ) : find_peaks wl0 (List.replicate n 0) = [] := by
  rw [find_peaks, List.filterMap_eq_nil_iff]
  intro i _
  rw [if_neg]
  rintro ⟨_, hlt⟩
  rw [getD_replicate_zero] at hlt
  exact absurd hlt (by decide)

lemma compute_power_zero (ker : ℕ → ℕ → ℕ → ℚ × ℚ) (sq : ℚ → ℚ) (hsq : sq 0 = 0)
    (n P : ℕ) : compute_power ker sq (List.replicate n 0) P = 0 := by
  unfold compute_power
  by_cases hg : P > (List.replicate n (0 : ℚ)).length / 2
  · rw [if_pos hg]
  · rw [if_neg hg]
    rw [if_pos (scanCenters_length_pos _ _)]
    have htot : totalPower ker (List.replicate n 0) P = 0 := by
      unfold totalPower
      apply List.sum_eq_zero
      intro x hx
      rcases List.mem_map.mp hx with ⟨c, _, rfl⟩
      have hip : innerProd (ker P) (List.replicate n 0)
          (wlenOf (List.replicate n (0 : ℚ)).length P) c = 0 := by
        unfold innerProd
        apply Finset.sum_eq_zero
        intro i _
        have hd : dval (List.replicate n 0)
            (wlenOf (List.replicate n (0 : ℚ)).length P) c i = 0 := by
          unfold dval
          by_cases hc : wlenOf (List.replicate n (0 : ℚ)).length P / 2 ≤ c + i ∧
              c + i - wlenOf (List.replicate n (0 : ℚ)).length P / 2 <
                (List.replicate n (0 : ℚ)).length
          · rw [if_pos hc]; exact getD_replicate_zero n _
          · rw [if_neg hc]
        rw [hd, zero_mul, zero_mul]
        exact Prod.mk_zero_zero
      rw [hip]
      unfold normSq
      simp
    rw [htot, zero_div, hsq]

/-- C5: on a constant (zero-variance) detrended window the power
estimator returns 0 for every period and every stage of the
scanner_clean post-processing pipeline up to normalization preserves the
all-zero spectrum, as does the guarded normalization of the rolling
variants and the peak finder; but the unguarded final normalization of
scanner_clean.cpp divides the all-zero spectrum by its zero maximum, so
the full pipeline ends in NaN entries (modelled as none) instead of the
all-zero spectrum the claim states. -/
theorem C5_constant_window_bug (ker : ℕ → ℕ → ℕ → ℚ × ℚ) (sq : ℚ → ℚ)
    (w10 w5 wad : ℤ → ℚ) (wl0 n : ℕ) (hsq : sq 0 = 0) :
    (∀ P, compute_power ker sq (List.replicate n 0) P = 0) ∧
      median_filter (List.replicate n 0) = List.replicate n 0 ∧
      smooth_spectrum w10 10 (List.replicate n 0) = List.replicate n 0 ∧
      enhance_peaks 2 (List.replicate n 0) = List.replicate n 0 ∧
      smooth_spectrum w5 5 (List.replicate n 0) = List.replicate n 0 ∧
      adaptive_pass wad adaptive_threshold (List.replicate n 0) = List.replicate n 0 ∧
      normalize_guarded (List.replicate n 0) = List.replicate n 0 ∧
      find_peaks wl0 (List.replicate n 0) = [] ∧
      normalize_clean (adaptive_pass wad adaptive_threshold (adaptive_pass wad
        adaptive_threshold (smooth_spectrum w5 5 (enhance_peaks 2 (smooth_spectrum w10 10
          (median_filter (List.replicate n 0))))))) = none := by
  refine ⟨fun P => compute_power_zero ker sq hsq n P, median_filter_zero n,
    smooth_zero w10 10 n, enhance_zero 2 n, smooth_zero w5 5 n, adaptive_zero wad n,
    normalize_guarded_zero n, find_peaks_zero wl0 n, ?_⟩
  rw [median_filter_zero n, smooth_zero w10 10 n, enhance_zero 2 n, smooth_zero w5 5 n,
    adaptive_zero wad n, adaptive_zero wad n]
  exact normalize_clean_zero n

/-- Witness for C5 at a concrete window length, kernel and weights. -/
theorem C5_constant_window_bug_witness :
    ((fun x : ℚ => x) 0 = 0) ∧
      compute_power (fun _ _ _ => ((0 : ℚ), (0 : ℚ))) (fun x => x)
        (List.replicate 3 0) 1 = 0 ∧
      normalize_clean (adaptive_pass (fun _ => 1) adaptive_threshold
        (adaptive_pass (fun _ => 1) adaptive_threshold (smooth_spectrum (fun _ => 1) 5
          (enhance_peaks 2 (smooth_spectrum (fun _ => 1) 10
            (median_filter (List.replicate 3 0))))))) = none :=
  ⟨rfl,
    (C5_constant_window_bug (fun _ _ _ => ((0 : ℚ), (0 : ℚ))) (fun x => x)
      (fun _ => 1) (fun _ => 1) (fun _ => 1) 30 3 rfl).1 1,
    (C5_constant_window_bug (fun _ _ _ => ((0 : ℚ), (0 : ℚ))) (fun x => x)
      (fun _ => 1) (fun _ => 1) (fun _ => 1) 30 3 rfl).2.2.2.2.2.2.2.2⟩

end Riley
